import Mathlib

/-!
# trt-yolo-server: the request handlers of `src/handler.cpp`

A shallow embedding of `Handler` (`split_url`, `handles`, `processImage`,
`apply_blur`, the two content routes and the exception handler) together with
the properties of its specification.

Conventions of the embedding.

* `std::string` is a list of characters (`url`, `host`, `path`) or a Lean
  `String` (bodies and content types, which are only compared and copied).
* `size_t` is a natural number below `2 ^ 64`; additions wrap modulo `2 ^ 64`.
* The collaborators that are not part of the repository (the detection engine,
  the OpenCV codec, the HTTP client, the OpenSSL base64 filter) are parameters.
* Effects are explicit: a handler is a function of the `World` (the mutex and
  the trace of collaborator calls) that returns an `Outcome`.
* Console diagnostics (`std::cout`, `std::cerr`) and the elapsed-time
  measurement touch neither the response, the image, the mutex nor the
  engine; they are left out.
-/

namespace TrtYolo

/-! ## Strings and `size_t` -/

/-- The modulus of `size_t` arithmetic on the 64-bit target. -/
def SIZE_MOD : Nat := 2 ^ 64

/-- The value `std::string::npos`, that is `size_t(-1)`. -/
def npos : Nat := 2 ^ 64 - 1

/-- Something thrown: a `std::exception` with its `what()` text, or any other value. -/
inductive Exn where
  | std (what : String)
  | other
deriving DecidableEq, Repr

deriving instance DecidableEq for Except

/-- Scan for `std::string::find(char, pos)`: `i` is the index of the head of the list. -/
def findCharFrom (ch : Char) : List Char → Nat → Nat
  | [], _ => npos
  | c :: cs, i => if c = ch then i else findCharFrom ch cs (i + 1)

/-- The call `s.find(ch, pos)`: the first index `>= pos` holding `ch`, else `npos`. -/
def find_char (s : List Char) (ch : Char) (pos : Nat) : Nat :=
  findCharFrom ch (s.drop pos) pos

/-- Scan for `std::string::find(str, pos)`: `i` is the index of the head of the list. -/
def findStrFrom (pat : List Char) : List Char → Nat → Nat
  | [], i => if pat = [] then i else npos
  | c :: cs, i => if pat.isPrefixOf (c :: cs) then i else findStrFrom pat cs (i + 1)

/-- The call `s.find(pat, pos)`: the first index `>= pos` where `pat` occurs, else `npos`. -/
def find_str (s : List Char) (pat : List Char) (pos : Nat) : Nat :=
  if s.length < pos then npos else findStrFrom pat (s.drop pos) pos

/-- The call `s.substr(pos, n)`: raises `std::out_of_range` when `pos > s.size()`. -/
def substr (s : List Char) (pos : Nat) (n : Nat) : Except Exn (List Char) :=
  if s.length < pos then .error (.std "basic_string::substr") else .ok ((s.drop pos).take n)

/-- The function `Handler::split_url` (handler.cpp:24-32); the pair is `(host, path)`. -/
def split_url (url : List Char) : Except Exn (List Char × List Char) :=
  let path_start := find_char url '/' ((find_str url "://".toList 0 + 3) % SIZE_MOD)
  if path_start = npos then
    .ok (url, "/".toList)
  else
    match substr url 0 path_start, substr url path_start npos with
    | .ok host, .ok path => .ok (host, path)
    | .error e, _ => .error e
    | _, .error e => .error e

/-! ## Data model -/

/-- A raster image, `cv::Mat`: `rows` and `cols` are the C++ `int` fields, `data` the pixel
buffer. -/
structure Mat where
  rows : Int
  cols : Int
  data : List Nat
deriving DecidableEq, Repr

/-- The test `cv::Mat::empty()`: no buffer, or no element. -/
def Mat.empty (m : Mat) : Bool :=
  m.data.isEmpty || m.rows * m.cols == 0

/-- The detected objects, `std::vector<Object>`; the handlers only pass them on. -/
abbrev Objects := List Nat

/-- The detection engine `YoloV8`: each call returns or throws. `drawObjectLabels` returns
the flag `masked` and the image as it has been drawn on. -/
structure Engine where
  detectObjects : Mat → Except Exn Objects
  drawObjectLabels : Mat → Objects → Except Exn (Bool × Mat)

/-- The state of `mutex_`. -/
inductive Gate where
  | free
  | held
deriving DecidableEq, Repr

/-- A call to a collaborator, as recorded in the trace. -/
inductive Event where
  | lock
  | unlock
  | detect (image : Mat)
  | draw (image : Mat) (objects : Objects)
  | httpGet (host path : List Char)
  | imdecode (bytes : String)
  | imwrite (file : String) (image : Mat)
  | imencode (ext : String) (image : Mat)
  | bioRead (base64 : String)
deriving DecidableEq, Repr

/-- What a handler can change besides its arguments: the mutex and the collaborators it
has called, oldest first. -/
structure World where
  gate : Gate
  trace : List Event
deriving DecidableEq, Repr

/-- How a piece of the program ends: it returns a value, it throws, it is left waiting on
the held mutex (the threads that could free it are the subject of `Sys` below), or it has
undefined behaviour (an access through a null pointer). -/
inductive Outcome (α : Type) where
  | ok (a : α) (w : World)
  | raised (e : Exn) (w : World)
  | blocked (w : World)
  | undefined (w : World)
deriving DecidableEq, Repr

/-- A computation of the program. -/
def M (α : Type) : Type := World → Outcome α

/-- Return of a value. -/
def M.pure {α : Type} (a : α) : M α := fun w => .ok a w

/-- Sequencing: the second part runs only when the first has returned. -/
def M.bind {α β : Type} (m : M α) (f : α → M β) : M β := fun w =>
  match m w with
  | .ok a w1 => f a w1
  | .raised e w1 => .raised e w1
  | .blocked w1 => .blocked w1
  | .undefined w1 => .undefined w1

instance : Monad M where
  pure := M.pure
  bind := M.bind

/-- A collaborator call: the call is recorded, then it returns or throws. -/
def call {α : Type} (ev : Event) (r : Except Exn α) : M α := fun w =>
  let w1 : World := { w with trace := w.trace ++ [ev] }
  match r with
  | .ok a => .ok a w1
  | .error e => .raised e w1

/-- A call that cannot throw inside the handlers' own code (`substr` within bounds). -/
def liftExcept {α : Type} (r : Except Exn α) : M α := fun w =>
  match r with
  | .ok a => .ok a w
  | .error e => .raised e w

/-- The call `mutex_->lock()`: takes a free mutex, waits on a held one. -/
def mutex_lock : M Unit := fun w =>
  match w.gate with
  | .free => .ok () { gate := .held, trace := w.trace ++ [.lock] }
  | .held => .blocked w

/-- The call `mutex_->unlock()`. -/
def mutex_unlock : M Unit := fun w =>
  .ok () { gate := .free, trace := w.trace ++ [.unlock] }

/-- The response being built, `httplib::Response`: its status, its body and its
`Content-Type` header. -/
structure Response where
  status : Int
  body : String
  content_type : String
deriving DecidableEq, Repr

/-- The call `res.set_content(s, content_type)`: replaces the body and the `Content-Type`
header, leaves the status. -/
def Response.set_content (res : Response) (s : String) (content_type : String) : Response :=
  { res with body := s, content_type := content_type }

/-- The request, `httplib::Request`: its body and the query parameter `q`. -/
structure Request where
  body : String
  q : List Char
deriving DecidableEq, Repr

/-- The response held by an `httplib::Result`: `status`, `get_header_value("Content-Type")`
and `body`. -/
structure Fetched where
  status : Int
  content_type : String
  body : String
deriving DecidableEq, Repr

/-- The collaborators outside the repository. `httpGet host path` is
`httplib::Client(host).Get(path)`, whose result holds no response (`none`) when the
request failed; `bioRead base64 n` is the OpenSSL base64 filter reading at most `n` bytes:
its return value and the bytes it wrote. -/
structure Env where
  eng : Engine
  httpGet : List Char → List Char → Option Fetched
  imdecode : String → Except Exn Mat
  imwrite : String → Mat → Except Exn Bool
  imencode : String → Mat → Except Exn String
  bioRead : String → Nat → Int × String

/-! ## The handlers -/

/-- The member `Handler::mime_types_` (handler.h:13). -/
def mime_types_ : List String := ["image/jpg", "image/jpeg", "image/png", "image/webp"]

/-- The function `Handler::handles` (handler.cpp:66-72). -/
def handles (content_type : String) : Bool :=
  mime_types_.any (fun type => type == content_type)

/-- The function `Handler::apply_blur` (handler.cpp:147-154). -/
def apply_blur (eng : Engine) (image : Mat) : M (Bool × Mat) := do
  mutex_lock
  let objects ← call (.detect image) (eng.detectObjects image)
  let masked ← call (.draw image objects) (eng.drawObjectLabels image objects)
  mutex_unlock
  pure masked

/-- The function `Handler::processImage` (handler.cpp:125-145): the flag it returns and the
image as it leaves it. -/
def processImage (eng : Engine) (image : Mat) : M (Bool × Mat) :=
  if image.empty then
    pure (false, image)
  else if image.rows < 15 || image.cols < 15 then
    pure (false, image)
  else do
    let applied ← apply_blur eng image
    pure applied

/-- The function `Handler::base64_decode` (handler.cpp:38-48): a zeroed buffer of
`base64.size() * 3 / 4` bytes, one `BIO_read` into it, and a string of `decoded_len` bytes
of the buffer, where `decoded_len` is the return value converted to `size_t`; a negative
return value becomes a length above `max_size()` and the string constructor throws. -/
def base64_decode (env : Env) (base64 : String) : M String := fun w =>
  let cap := base64.length * 3 / 4
  let r := env.bioRead base64 cap
  let buffer := (r.2.data ++ List.replicate cap (Char.ofNat 0)).take cap
  let w1 : World := { w with trace := w.trace ++ [.bioRead base64] }
  let decoded_len := (r.1 % (SIZE_MOD : Int)).toNat
  if decoded_len ≤ cap then
    .ok (String.mk (buffer.take decoded_len)) w1
  else
    .raised (.std "basic_string::_M_create") w1

/-- The access `result->` of handler.cpp:85-105: `httplib::Result::operator->` returns the
held pointer, which is null when there is no response. -/
def deref (result : Option Fetched) : M Fetched := fun w =>
  match result with
  | some r => .ok r w
  | none => .undefined w

/-- The handler of `GET /`, `Handler::handleImageDlRequest` (handler.cpp:75-107). -/
def handleImageDlRequest (env : Env) (req : Request) (res : Response) : M Response := do
  let url := req.q
  let (host, path) ← liftExcept (split_url url)
  let result ← call (.httpGet host path) (.ok (env.httpGet host path))
  let r ← deref result
  if !handles r.content_type then
    pure (res.set_content r.body r.content_type)
  else do
    let image_data := r.body
    let image ← call (.imdecode image_data) (env.imdecode image_data)
    let _ ← call (.imwrite "image.jpg" image) (env.imwrite "image.jpg" image)
    let (applied, image1) ← processImage env.eng image
    if applied then do
      let output_image_data ← call (.imencode ".png" image1) (env.imencode ".png" image1)
      pure (res.set_content output_image_data "image/png")
    else
      pure (res.set_content r.body r.content_type)

/-- The handler of `POST /q`, `Handler::handleImageRequest` (handler.cpp:109-123). -/
def handleImageRequest (env : Env) (req : Request) (res : Response) : M Response := do
  let base64 := req.body
  let decoded ← base64_decode env base64
  let image_data := decoded
  let image ← call (.imdecode image_data) (env.imdecode image_data)
  let (_, image1) ← processImage env.eng image
  let output_image_data ← call (.imencode ".png" image1) (env.imencode ".png" image1)
  pure (res.set_content output_image_data "image/png")

/-- The handler installed by `Handler::handleException` (handler.cpp:156-171): both
`catch` clauses only write to `std::cerr`. -/
def handleException (_req : Request) (res : Response) (_ep : Exn) : Response :=
  let fmt := "<h1>Error 500</h1><p>%s</p>"
  let res1 := res.set_content fmt "text/html"
  { res1 with status := 500 }

/-! ## Concurrent requests in `apply_blur`

The worker threads of the server run `apply_blur` on one `Handler`, hence on one mutex
and one engine. A thread is at one of the four statements of `apply_blur`, or has left
it; a step runs one statement of one thread. -/

/-- Where a thread stands in `apply_blur` (handler.cpp:147-154). -/
inductive Pc where
  | atLock (image : Mat)
  | atDetect (image : Mat)
  | atDraw (image : Mat) (objects : Objects)
  | atUnlock (masked : Bool × Mat)
  | returned (masked : Bool × Mat)
  | threw (e : Exn)
deriving DecidableEq, Repr

/-- One statement of `apply_blur`: `lock()` goes through only on a free mutex, the two
engine calls return or throw, `unlock()` frees the mutex. -/
def Pc.step (eng : Engine) (g : Gate) : Pc → Gate × Pc
  | .atLock image =>
    match g with
    | .free => (.held, .atDetect image)
    | .held => (.held, .atLock image)
  | .atDetect image =>
    match eng.detectObjects image with
    | .ok objects => (g, .atDraw image objects)
    | .error e => (g, .threw e)
  | .atDraw image objects =>
    match eng.drawObjectLabels image objects with
    | .ok masked => (g, .atUnlock masked)
    | .error e => (g, .threw e)
  | .atUnlock masked => (.free, .returned masked)
  | .returned masked => (g, .returned masked)
  | .threw e => (g, .threw e)

/-- A thread is between `mutex_->lock()` and `mutex_->unlock()`: it is about to call the
engine, or it has called it and not yet unlocked. -/
def Pc.inCritical : Pc → Bool
  | .atDetect _ => true
  | .atDraw _ _ => true
  | .atUnlock _ => true
  | _ => false

/-- A thread has locked the mutex and not unlocked it. -/
def Pc.holds : Pc → Bool
  | .atDetect _ => true
  | .atDraw _ _ => true
  | .atUnlock _ => true
  | .threw _ => true
  | _ => false

/-- The mutex and the threads. -/
structure Sys where
  gate : Gate
  threads : List Pc
deriving DecidableEq, Repr

/-- Thread `i` runs its next statement; `eng` is what the engine does if it is called. -/
def Sys.step (s : Sys) (i : Nat) (eng : Engine) : Sys :=
  match s.threads[i]? with
  | none => s
  | some pc => { gate := (pc.step eng s.gate).1, threads := s.threads.set i (pc.step eng s.gate).2 }

/-- A schedule: which thread moves, and what the engine does, step after step. -/
def Sys.run (s : Sys) (sched : List (Nat × Engine)) : Sys :=
  sched.foldl (fun t x => t.step x.1 x.2) s

/-- One request per image enters `apply_blur`; the mutex is free. -/
def Sys.init (images : List Mat) : Sys :=
  { gate := .free, threads := images.map Pc.atLock }

/-- The mutex is held exactly when one thread has locked and not unlocked it, and then by
one thread only. -/
def Sys.Inv (s : Sys) : Prop :=
  s.threads.countP Pc.holds = (match s.gate with | .held => 1 | .free => 0)

/-! ## Concrete inputs -/

/-- A 20 x 20 image with three channels. -/
def img20 : Mat := { rows := 20, cols := 20, data := List.replicate 1200 7 }

/-- The image `img20` after the engine has drawn on it. -/
def img20Drawn : Mat := { rows := 20, cols := 20, data := List.replicate 1200 9 }

/-- A 10 x 10 image: below the 15-pixel threshold. -/
def img10 : Mat := { rows := 10, cols := 10, data := List.replicate 300 7 }

/-- An engine that finds one object and draws it. -/
def drawingEngine : Engine :=
  { detectObjects := fun _ => .ok [1]
    drawObjectLabels := fun image _ => .ok (true, { image with data := List.replicate 1200 9 }) }

/-- An engine that finds nothing and draws nothing. -/
def idleEngine : Engine :=
  { detectObjects := fun _ => .ok []
    drawObjectLabels := fun image _ => .ok (false, image) }

/-- An engine whose detection throws. -/
def faultyEngine : Engine :=
  { detectObjects := fun _ => .error (.std "engine fault")
    drawObjectLabels := fun image _ => .ok (false, image) }

/-- A world in which nothing has happened yet. -/
def world0 : World := { gate := .free, trace := [] }

/-- A fresh `httplib::Response`: status `-1`, no body, no content type. -/
def res0 : Response := { status := -1, body := "", content_type := "" }

/-- Collaborators for the examples: the remote host serves `served`, every body decodes to
`image`, and the encoder tells by the first pixel whether the image was drawn on. -/
def exampleEnv (eng : Engine) (served : Option Fetched) (image : Mat) : Env :=
  { eng := eng
    httpGet := fun _ _ => served
    imdecode := fun _ => .ok image
    imwrite := fun _ _ => .ok true
    imencode := fun _ m => .ok (if m.data.head? = some 9 then "PNG-drawn" else "PNG-unchanged")
    bioRead := fun base64 n => (min base64.length n, base64) }

/-- A request for `GET /?q=http://example.test/cat.jpg`. -/
def getReq : Request := { body := "", q := "http://example.test/cat.jpg".toList }

/-- A request for `GET /?q=http://example.test/cat.gif`. -/
def gifReq : Request := { body := "", q := "http://example.test/cat.gif".toList }

/-- What the remote host serves for `cat.gif`. -/
def gifServed : Fetched := { status := 200, content_type := "image/gif", body := "GIF89a" }

/-- What the remote host serves for `cat.jpg`. -/
def jpgServed : Fetched := { status := 200, content_type := "image/jpeg", body := "JFIF" }

/-- A request for `POST /q` with four characters of body. -/
def postReq : Request := { body := "AAAA", q := [] }

/-! ## Lemmas on the string searches -/

theorem findCharFrom_first (ch : Char) (l : List Char) (i j : Nat)
    (hj : l[j]? = some ch) (hbefore : ch ∉ l.take j) : findCharFrom ch l i = i + j := by
  induction l generalizing i j with
  | nil => simp at hj
  | cons c cs ih =>
    cases j with
    | zero =>
      simp at hj
      simp [findCharFrom, hj]
    | succ j =>
      simp only [List.take_succ_cons, List.mem_cons, not_or] at hbefore
      have hne : ¬ c = ch := fun h => hbefore.1 h.symm
      simp only [List.getElem?_cons_succ] at hj
      simp only [findCharFrom, hne, if_false]
      rw [ih (i + 1) j hj hbefore.2]
      omega

theorem findCharFrom_absent (ch : Char) (l : List Char) (i : Nat) (h : ch ∉ l) :
    findCharFrom ch l i = npos := by
  induction l generalizing i with
  | nil => rfl
  | cons c cs ih =>
    simp only [List.mem_cons, not_or] at h
    have hne : ¬ c = ch := fun e => h.1 e.symm
    simp only [findCharFrom, hne, if_false]
    exact ih (i + 1) h.2

theorem findCharFrom_cases (ch : Char) (l : List Char) (i : Nat) :
    findCharFrom ch l i = npos ∨
      ∃ j, findCharFrom ch l i = i + j ∧ l[j]? = some ch ∧ ch ∉ l.take j := by
  induction l generalizing i with
  | nil => left; rfl
  | cons c cs ih =>
    by_cases hc : c = ch
    · right
      exact ⟨0, by simp [findCharFrom, hc], by simp [hc], by simp⟩
    · rcases ih (i + 1) with h | ⟨j, h1, h2, h3⟩
      · left
        simp only [findCharFrom, hc, if_false]
        exact h
      · right
        refine ⟨j + 1, ?_, ?_, ?_⟩
        · simp only [findCharFrom, hc, if_false]
          rw [h1]; omega
        · simpa using h2
        · simp only [List.take_succ_cons, List.mem_cons, not_or]
          exact ⟨fun e => hc e.symm, h3⟩

theorem find_char_first (s : List Char) (ch : Char) (pos j : Nat) (hpos : pos ≤ j)
    (hj : s[j]? = some ch) (hbefore : ch ∉ (s.take j).drop pos) : find_char s ch pos = j := by
  unfold find_char
  have h1 : (s.drop pos)[j - pos]? = some ch := by
    rw [List.getElem?_drop]
    have : pos + (j - pos) = j := by omega
    rw [this]; exact hj
  have h2 : ch ∉ (s.drop pos).take (j - pos) := by
    rw [← List.drop_take]
    exact hbefore
  rw [findCharFrom_first ch (s.drop pos) pos (j - pos) h1 h2]
  omega

theorem find_char_absent (s : List Char) (ch : Char) (pos : Nat) (h : ch ∉ s.drop pos) :
    find_char s ch pos = npos :=
  findCharFrom_absent ch (s.drop pos) pos h

theorem find_char_cases (s : List Char) (ch : Char) (pos : Nat) :
    find_char s ch pos = npos ∨
      ∃ j, find_char s ch pos = j ∧ pos ≤ j ∧ s[j]? = some ch ∧ ch ∉ (s.take j).drop pos := by
  unfold find_char
  rcases findCharFrom_cases ch (s.drop pos) pos with h | ⟨j, h1, h2, h3⟩
  · left; exact h
  · right
    refine ⟨pos + j, h1, by omega, ?_, ?_⟩
    · rw [List.getElem?_drop] at h2; exact h2
    · rw [List.drop_take]
      simpa using h3

theorem findStrFrom_first (pat : List Char) (l : List Char) (i p : Nat) (hpat : pat ≠ [])
    (hp : pat <+: l.drop p) (hfirst : ∀ q < p, ¬ pat <+: l.drop q) :
    findStrFrom pat l i = i + p := by
  induction l generalizing i p with
  | nil =>
    simp at hp
    exact absurd hp hpat
  | cons c cs ih =>
    cases p with
    | zero =>
      simp only [List.drop_zero] at hp
      have : pat.isPrefixOf (c :: cs) = true := List.isPrefixOf_iff_prefix.mpr hp
      simp [findStrFrom, this]
    | succ p =>
      have h0 : ¬ pat <+: c :: cs := by simpa using hfirst 0 (by omega)
      have h0b : ¬ pat.isPrefixOf (c :: cs) = true := fun h => h0 (List.isPrefixOf_iff_prefix.mp h)
      rw [findStrFrom, if_neg h0b]
      have hp1 : pat <+: cs.drop p := by simpa using hp
      have hf1 : ∀ q < p, ¬ pat <+: cs.drop q := by
        intro q hq
        simpa using hfirst (q + 1) (by omega)
      rw [ih (i + 1) p hp1 hf1]
      omega

theorem findStrFrom_absent (pat : List Char) (l : List Char) (i : Nat) (hpat : pat ≠ [])
    (h : ¬ pat <:+: l) : findStrFrom pat l i = npos := by
  induction l generalizing i with
  | nil => simp [findStrFrom, hpat]
  | cons c cs ih =>
    have h0 : ¬ pat.isPrefixOf (c :: cs) = true :=
      fun hpre => h (List.isPrefixOf_iff_prefix.mp hpre).isInfix
    simp only [findStrFrom, h0, if_false]
    apply ih
    intro hin
    exact h (hin.trans (List.suffix_cons c cs).isInfix)

theorem find_str_first (url : List Char) (p : Nat) (hp : "://".toList <+: url.drop p)
    (hfirst : ∀ q < p, ¬ "://".toList <+: url.drop q) : find_str url "://".toList 0 = p := by
  unfold find_str
  simp only [Nat.not_lt_zero, if_false, List.drop_zero]
  rw [findStrFrom_first "://".toList url 0 p (by decide) hp hfirst]
  omega

theorem find_str_absent (url : List Char) (h : ¬ "://".toList <:+: url) :
    find_str url "://".toList 0 = npos := by
  unfold find_str
  simp only [Nat.not_lt_zero, if_false, List.drop_zero]
  exact findStrFrom_absent "://".toList url 0 (by decide) h

theorem scheme_end_le (url : List Char) (p : Nat) (hp : "://".toList <+: url.drop p) :
    p + 3 ≤ url.length := by
  have h := hp.length_le
  simp only [List.length_drop] at h
  have h3 : "://".toList.length = 3 := by decide
  omega

/-- The two branches of `split_url`, given where the search for the slash starts. -/
theorem split_url_from (url : List Char) (start : Nat) (hlen : url.length < npos)
    (hstart : (find_str url "://".toList 0 + 3) % SIZE_MOD = start) :
    (∀ j, start ≤ j → url[j]? = some '/' → '/' ∉ (url.take j).drop start →
        split_url url = .ok (url.take j, url.drop j)) ∧
      ('/' ∉ url.drop start → split_url url = .ok (url, "/".toList)) := by
  constructor
  · intro j hsj hj hbefore
    have hfind := find_char_first url '/' start j hsj hj hbefore
    have hjlt : j < url.length := by
      rcases Nat.lt_or_ge j url.length with h | h
      · exact h
      · rw [List.getElem?_eq_none h] at hj
        simp at hj
    have hne : ¬ j = npos := by omega
    have hl1 : ¬ url.length < 0 := by omega
    have hl2 : ¬ url.length < j := by omega
    have htake : List.take npos (List.drop j url) = List.drop j url := by
      apply List.take_of_length_le
      simp only [List.length_drop]
      omega
    simp only [split_url, hstart, hfind, hne, if_false, substr, hl1, hl2, List.drop_zero,
      htake]
  · intro habsent
    have hfind := find_char_absent url '/' start habsent
    simp only [split_url, hstart, hfind, if_true]

/-- The function `split_url` returns for every url, with one of two shapes. -/
theorem split_url_shape (url : List Char) (hlen : url.length < npos) :
    ∃ host path, split_url url = .ok (host, path) ∧
      ((host = url ∧ path = "/".toList) ∨ (host ++ path = url ∧ path.head? = some '/')) := by
  have hfrom := split_url_from url _ hlen rfl
  rcases find_char_cases url '/' ((find_str url "://".toList 0 + 3) % SIZE_MOD) with
    h | ⟨j, _, h2, h3, h4⟩
  · refine ⟨url, "/".toList, ?_, Or.inl ⟨rfl, rfl⟩⟩
    simp only [split_url, h, if_true]
  · refine ⟨url.take j, url.drop j, hfrom.1 j h2 h3 h4, Or.inr ⟨List.take_append_drop j url, ?_⟩⟩
    rw [List.head?_drop]
    exact h3

/-! ## Lemmas on the sequencing of effects -/

theorem bind_apply {α β : Type} (m : M α) (f : α → M β) (w : World) :
    (m >>= f) w = M.bind m f w := rfl

theorem pure_apply {α : Type} (a : α) (w : World) : (pure a : M α) w = .ok a w := rfl

theorem bind_ok {α β : Type} (m : M α) (f : α → M β) (w w1 : World) (a : α)
    (h : m w = .ok a w1) : (m >>= f) w = f a w1 := by
  simp only [bind_apply, M.bind, h]

theorem bind_raised {α β : Type} (m : M α) (f : α → M β) (w w1 : World) (e : Exn)
    (h : m w = .raised e w1) : (m >>= f) w = .raised e w1 := by
  simp only [bind_apply, M.bind, h]

theorem call_ok {α : Type} (ev : Event) (a : α) (w : World) :
    call ev (.ok a) w = .ok a { w with trace := w.trace ++ [ev] } := rfl

theorem call_error {α : Type} (ev : Event) (e : Exn) (w : World) :
    (call ev (.error e) : M α) w = .raised e { w with trace := w.trace ++ [ev] } := rfl

/-- An image below the threshold never reaches `apply_blur`. -/
theorem processImage_small (eng : Engine) (image : Mat) (w : World)
    (h : image.empty = true ∨ image.rows < 15 ∨ image.cols < 15) :
    processImage eng image w = .ok (false, image) w := by
  unfold processImage
  by_cases he : image.empty = true
  · simp only [he, if_true, pure_apply]
  · have h2 : (decide (image.rows < 15) || decide (image.cols < 15)) = true := by
      rcases h with h | h | h
      · exact absurd h he
      · simp [h]
      · simp [h]
    simp only [he, h2, if_true, pure_apply]
    rfl

/-- What `apply_blur` does from a free mutex, by what the engine does: the mutex is free
again when both engine calls return, and is left held when one of them throws. -/
theorem apply_blur_outcomes (eng : Engine) (image : Mat) (w : World) (hfree : w.gate = .free) :
    (∀ objects masked, eng.detectObjects image = .ok objects →
      eng.drawObjectLabels image objects = .ok masked →
      apply_blur eng image w = .ok masked
        { gate := .free,
          trace := w.trace ++ [.lock] ++ [.detect image] ++ [.draw image objects] ++
            [.unlock] }) ∧
    (∀ e, eng.detectObjects image = .error e →
      apply_blur eng image w = .raised e
        { gate := .held, trace := w.trace ++ [.lock] ++ [.detect image] }) ∧
    (∀ objects e, eng.detectObjects image = .ok objects →
      eng.drawObjectLabels image objects = .error e →
      apply_blur eng image w = .raised e
        { gate := .held,
          trace := w.trace ++ [.lock] ++ [.detect image] ++ [.draw image objects] }) := by
  refine ⟨fun objects masked hd hl => ?_, fun e hd => ?_, fun objects e hd hl => ?_⟩
  · simp only [apply_blur, bind_apply, M.bind, mutex_lock, hfree, call, hd, hl, mutex_unlock,
      pure_apply]
  · simp only [apply_blur, bind_apply, M.bind, mutex_lock, hfree, call, hd]
  · simp only [apply_blur, bind_apply, M.bind, mutex_lock, hfree, call, hd, hl]

/-! ## Lemmas on the concurrent requests -/

theorem countP_set_add {α : Type} (p : α → Bool) (l : List α) (i : Nat) (a b : α)
    (h : l[i]? = some a) :
    (l.set i b).countP p + (if p a = true then 1 else 0) =
      l.countP p + (if p b = true then 1 else 0) := by
  induction l generalizing i with
  | nil => simp at h
  | cons c cs ih =>
    cases i with
    | zero =>
      simp only [List.getElem?_cons_zero, Option.some.injEq] at h
      subst h
      simp only [List.set_cons_zero, List.countP_cons]
      omega
    | succ i =>
      simp only [List.getElem?_cons_succ] at h
      have := ih i h
      simp only [List.set_cons_succ, List.countP_cons]
      omega

theorem Sys.inv_init (images : List Mat) : (Sys.init images).Inv := by
  unfold Sys.Inv Sys.init
  simp only [List.countP_map]
  induction images with
  | nil => rfl
  | cons m ms ih =>
    simp only [List.countP_cons, Function.comp, Pc.holds] at ih ⊢
    simpa using ih

theorem Sys.inv_step (s : Sys) (i : Nat) (eng : Engine) (h : s.Inv) : (s.step i eng).Inv := by
  unfold Sys.step
  cases hpc : s.threads[i]? with
  | none => exact h
  | some pc =>
    unfold Sys.Inv at h ⊢
    have hset := fun b => countP_set_add Pc.holds s.threads i pc b hpc
    simp only
    cases pc with
    | atLock image =>
      cases hg : s.gate with
      | free =>
        have := hset (.atDetect image)
        simp only [hg, Pc.step, Pc.holds] at h this ⊢
        simp at this
        omega
      | held =>
        have := hset (.atLock image)
        simp only [hg, Pc.step, Pc.holds] at h this ⊢
        simp at this
        omega
    | atDetect image =>
      cases hd : eng.detectObjects image with
      | ok objects =>
        have := hset (.atDraw image objects)
        simp only [Pc.step, hd, Pc.holds] at h this ⊢
        simp at this
        omega
      | error e =>
        have := hset (.threw e)
        simp only [Pc.step, hd, Pc.holds] at h this ⊢
        simp at this
        omega
    | atDraw image objects =>
      cases hd : eng.drawObjectLabels image objects with
      | ok masked =>
        have := hset (.atUnlock masked)
        simp only [Pc.step, hd, Pc.holds] at h this ⊢
        simp at this
        omega
      | error e =>
        have := hset (.threw e)
        simp only [Pc.step, hd, Pc.holds] at h this ⊢
        simp at this
        omega
    | atUnlock masked =>
      have := hset (.returned masked)
      simp only [Pc.step, Pc.holds] at h this ⊢
      simp at this
      cases hg : s.gate with
      | free => rw [hg] at h; simp only at h; omega
      | held => rw [hg] at h; simp only at h; omega
    | returned masked =>
      have := hset (.returned masked)
      simp only [Pc.step, Pc.holds] at h this ⊢
      simp at this
      omega
    | threw e =>
      have := hset (.threw e)
      simp only [Pc.step, Pc.holds] at h this ⊢
      simp at this
      omega

theorem Sys.inv_run (s : Sys) (sched : List (Nat × Engine)) (h : s.Inv) : (s.run sched).Inv := by
  unfold Sys.run
  induction sched generalizing s with
  | nil => exact h
  | cons x xs ih => exact ih (s.step x.1 x.2) (Sys.inv_step s x.1 x.2 h)

/-- A thread that runs alone ends as `apply_blur` does, with the mutex as `apply_blur`
leaves it. -/
theorem Sys.lone_thread (eng : Engine) (image : Mat) :
    (match apply_blur eng image { gate := .free, trace := [] } with
      | .ok masked w =>
        (Sys.init [image]).run (List.replicate 4 (0, eng)) =
          { gate := w.gate, threads := [.returned masked] }
      | .raised e w =>
        (Sys.init [image]).run (List.replicate 4 (0, eng)) =
          { gate := w.gate, threads := [.threw e] }
      | _ => False) := by
  cases hd : eng.detectObjects image with
  | error e =>
    simp [apply_blur, bind_apply, M.bind, mutex_lock, call, hd, Sys.init, Sys.run, Sys.step,
      Pc.step, List.replicate]
  | ok objects =>
    cases hl : eng.drawObjectLabels image objects with
    | error e =>
      simp [apply_blur, bind_apply, M.bind, mutex_lock, call, hd, hl, Sys.init, Sys.run,
        Sys.step, Pc.step, List.replicate]
    | ok masked =>
      simp [apply_blur, bind_apply, M.bind, mutex_lock, mutex_unlock, call, hd, hl, Sys.init,
        Sys.run, Sys.step, Pc.step, List.replicate, pure_apply]

/-! ## The claims -/

/-- C1: for every image that is empty, or has fewer than 15 rows, or fewer than 15 columns,
`processImage` returns false and the image as it was, in the world as it was: the mutex is
not touched and no call of the engine (no call at all) is added to the trace, whatever
the engine is. -/
theorem processImage_rejects_degenerate (eng : Engine) (image : Mat) (w : World)
    (h : image.empty = true ∨ image.rows < 15 ∨ image.cols < 15) :
    processImage eng image w = .ok (false, image) w :=
  processImage_small eng image w h

/-- The 10 x 10 image is rejected without a call. -/
theorem processImage_rejects_degenerate_witness :
    (img10.empty = true ∨ img10.rows < 15 ∨ img10.cols < 15) ∧
      processImage drawingEngine img10 world0 = .ok (false, img10) world0 :=
  ⟨by decide, processImage_rejects_degenerate drawingEngine img10 world0 (by decide)⟩

/-- C3: `handles` is true exactly on the four strings `image/jpg`, `image/jpeg`,
`image/png`, `image/webp` (a case variant or a value with a parameter is not handled), and
when the fetched response has any other content type the handler of `GET /` answers with
the fetched body and the fetched content type: the only call in the trace is the fetch,
so nothing is decoded, the engine is not called and nothing is encoded. -/
theorem handles_exact_and_passthrough (env : Env) (req : Request) (res : Response) (w : World)
    (host path : List Char) (r : Fetched)
    (hs : split_url req.q = .ok (host, path))
    (hget : env.httpGet host path = some r)
    (hct : ¬ (r.content_type = "image/jpg" ∨ r.content_type = "image/jpeg" ∨
      r.content_type = "image/png" ∨ r.content_type = "image/webp")) :
    (∀ ct : String, handles ct = true ↔
      (ct = "image/jpg" ∨ ct = "image/jpeg" ∨ ct = "image/png" ∨ ct = "image/webp")) ∧
    handles "image/PNG" = false ∧ handles "image/png; charset=x" = false ∧
    handleImageDlRequest env req res w =
      .ok { status := res.status, body := r.body, content_type := r.content_type }
        { gate := w.gate, trace := w.trace ++ [.httpGet host path] } := by
  have hiff : ∀ ct : String, handles ct = true ↔
      (ct = "image/jpg" ∨ ct = "image/jpeg" ∨ ct = "image/png" ∨ ct = "image/webp") := by
    intro ct
    simp only [handles, mime_types_, List.any_cons, List.any_nil, Bool.or_false,
      Bool.or_eq_true, beq_iff_eq]
    constructor
    · rintro (h | h | h | h)
      · exact Or.inl h.symm
      · exact Or.inr (Or.inl h.symm)
      · exact Or.inr (Or.inr (Or.inl h.symm))
      · exact Or.inr (Or.inr (Or.inr h.symm))
    · rintro (h | h | h | h)
      · exact Or.inl h.symm
      · exact Or.inr (Or.inl h.symm)
      · exact Or.inr (Or.inr (Or.inl h.symm))
      · exact Or.inr (Or.inr (Or.inr h.symm))
  refine ⟨hiff, by decide, by decide, ?_⟩
  have hh : handles r.content_type = false := by
    cases hv : handles r.content_type with
    | false => rfl
    | true => exact absurd ((hiff _).mp hv) hct
  simp only [handleImageDlRequest, bind_apply, M.bind, liftExcept, hs, call, hget, deref, hh,
    Bool.not_false, if_true, pure_apply, Response.set_content]

/-- A fetched `image/gif` is passed through. -/
theorem handles_exact_and_passthrough_witness :
    handleImageDlRequest (exampleEnv drawingEngine (some gifServed) img20) gifReq res0 world0 =
      .ok { status := -1, body := "GIF89a", content_type := "image/gif" }
        { gate := .free,
          trace := [.httpGet "http://example.test".toList "/cat.gif".toList] } :=
  (handles_exact_and_passthrough (exampleEnv drawingEngine (some gifServed) img20) gifReq res0
    world0 "http://example.test".toList "/cat.gif".toList gifServed (by decide) rfl
    (by decide)).2.2.2

/-- C6: for every caught failure, a `std::exception` with any message or anything else,
the exception handler leaves the response with status 500, content type `text/html` and
the body `<h1>Error 500</h1><p>%s</p>`; the body is the same for any two failures (and any
two requests and responses), so the message of the failure is not in it. -/
theorem handleException_fixed_response (req : Request) (res : Response) (ep : Exn) :
    handleException req res ep =
      { status := 500, body := "<h1>Error 500</h1><p>%s</p>", content_type := "text/html" } ∧
    ∀ (req1 : Request) (res1 : Response) (ep1 : Exn),
      (handleException req res ep).body = (handleException req1 res1 ep1).body :=
  ⟨rfl, fun _ _ _ => rfl⟩

/-- C7: when the base64 decoding, the image decoding, `processImage` and the PNG encoding
return, the handler of `POST /q` answers with content type `image/png` and the PNG encoding
of the image as `processImage` left it, whether `processImage` returned true or false, and
with the status it was given. -/
theorem handleImageRequest_png (env : Env) (req : Request) (res : Response)
    (w w1 w2 : World) (decoded png : String) (image image1 : Mat) (applied : Bool)
    (hb64 : base64_decode env req.body w = .ok decoded w1)
    (hdec : env.imdecode decoded = .ok image)
    (hproc : processImage env.eng image { w1 with trace := w1.trace ++ [.imdecode decoded] } =
      .ok (applied, image1) w2)
    (henc : env.imencode ".png" image1 = .ok png) :
    handleImageRequest env req res w =
      .ok { status := res.status, body := png, content_type := "image/png" }
        { w2 with trace := w2.trace ++ [.imencode ".png" image1] } := by
  simp only [handleImageRequest, bind_apply, M.bind, hb64, call, hdec, hproc, henc, pure_apply,
    Response.set_content]

/-- An upload on which the engine draws nothing is answered with its PNG encoding. -/
theorem handleImageRequest_png_witness :
    handleImageRequest (exampleEnv idleEngine none img20) postReq res0 world0 =
      .ok { status := -1, body := "PNG-unchanged", content_type := "image/png" }
        { gate := .free,
          trace := [.bioRead "AAAA", .imdecode "AAA", .lock, .detect img20, .draw img20 [],
            .unlock, .imencode ".png" img20] } :=
  handleImageRequest_png (exampleEnv idleEngine none img20) postReq res0 world0
    { gate := .free, trace := [.bioRead "AAAA"] }
    { gate := .free,
      trace := [.bioRead "AAAA", .imdecode "AAA", .lock, .detect img20, .draw img20 [], .unlock] }
    "AAA" "PNG-unchanged" img20 img20 false rfl rfl rfl rfl

/-- C2, as stated, fails: the fetched content type is `image/jpeg`, the image is 20 x 20 and
the engine draws nothing, so `processImage` returns false and the handler of `GET /`
answers with the fetched body under the fetched content type `image/jpeg`; nothing is
encoded. -/
theorem accepted_type_not_always_png :
    handles jpgServed.content_type = true ∧
    handleImageDlRequest (exampleEnv idleEngine (some jpgServed) img20) getReq res0 world0 =
      .ok { status := -1, body := "JFIF", content_type := "image/jpeg" }
        { gate := .free,
          trace := [.httpGet "http://example.test".toList "/cat.jpg".toList, .imdecode "JFIF",
            .imwrite "image.jpg" img20, .lock, .detect img20, .draw img20 [], .unlock] } ∧
    ("image/jpeg" : String) ≠ "image/png" :=
  ⟨by decide, rfl, by decide⟩

/-- C2, amended: when the fetched content type is one of the four accepted ones and the
decoding, `imwrite` and `processImage` return, the handler of `GET /` answers with the PNG
encoding of the image under `image/png` if `processImage` returned true, and with the
fetched body under the fetched content type, nothing being encoded, if it returned
false. -/
theorem handleImageDlRequest_accepted (env : Env) (req : Request) (res : Response)
    (w w2 : World) (host path : List Char) (r : Fetched) (image image1 : Mat)
    (saved applied : Bool)
    (hs : split_url req.q = .ok (host, path))
    (hget : env.httpGet host path = some r)
    (hct : r.content_type = "image/jpg" ∨ r.content_type = "image/jpeg" ∨
      r.content_type = "image/png" ∨ r.content_type = "image/webp")
    (hdec : env.imdecode r.body = .ok image)
    (hwr : env.imwrite "image.jpg" image = .ok saved)
    (hproc : processImage env.eng image
      { gate := w.gate,
        trace := w.trace ++ [.httpGet host path] ++ [.imdecode r.body] ++
          [.imwrite "image.jpg" image] } = .ok (applied, image1) w2) :
    (applied = true → ∀ png : String, env.imencode ".png" image1 = .ok png →
      handleImageDlRequest env req res w =
        .ok { status := res.status, body := png, content_type := "image/png" }
          { gate := w2.gate, trace := w2.trace ++ [.imencode ".png" image1] }) ∧
    (applied = false →
      handleImageDlRequest env req res w =
        .ok { status := res.status, body := r.body, content_type := r.content_type } w2) := by
  have hh : handles r.content_type = true := by
    rcases hct with h | h | h | h <;> rw [h] <;> decide
  constructor
  · intro ha png henc
    subst ha
    simp only [handleImageDlRequest, bind_apply, M.bind, liftExcept, hs, call, hget, deref, hh,
      Bool.not_true, Bool.false_eq_true, if_false, hdec, hwr, hproc, henc, pure_apply,
      Response.set_content, if_true]
  · intro ha
    subst ha
    simp only [handleImageDlRequest, bind_apply, M.bind, liftExcept, hs, call, hget, deref, hh,
      Bool.not_true, Bool.false_eq_true, if_false, hdec, hwr, hproc, pure_apply,
      Response.set_content]

/-- A fetched `image/jpeg` on which the engine draws is answered with the PNG encoding. -/
theorem handleImageDlRequest_accepted_witness :
    handleImageDlRequest (exampleEnv drawingEngine (some jpgServed) img20) getReq res0 world0 =
      .ok { status := -1, body := "PNG-drawn", content_type := "image/png" }
        { gate := .free,
          trace := [.httpGet "http://example.test".toList "/cat.jpg".toList, .imdecode "JFIF",
            .imwrite "image.jpg" img20, .lock, .detect img20, .draw img20 [1], .unlock,
            .imencode ".png" img20Drawn] } :=
  (handleImageDlRequest_accepted (exampleEnv drawingEngine (some jpgServed) img20) getReq res0
    world0
    { gate := .free,
      trace := [.httpGet "http://example.test".toList "/cat.jpg".toList, .imdecode "JFIF",
        .imwrite "image.jpg" img20, .lock, .detect img20, .draw img20 [1], .unlock] }
    "http://example.test".toList "/cat.jpg".toList jpgServed img20 img20Drawn true true
    (by decide) rfl (by decide) rfl rfl rfl).1 rfl "PNG-drawn" rfl

/-- C4, the failing input: the mutex is free, the image is 20 x 20 and `detectObjects`
throws; `apply_blur` ends by the exception with the mutex still held, `unlock` not having
been called. -/
theorem apply_blur_fault_leaves_gate_held :
    apply_blur faultyEngine img20 world0 =
      .raised (.std "engine fault") { gate := .held, trace := [.lock, .detect img20] } :=
  rfl

/-- C9, the failing input: the remote fetch obtains no response; the handler of `GET /`
goes on to read `result->status` and has undefined behaviour, no response being set. -/
theorem handleImageDlRequest_no_response :
    handleImageDlRequest (exampleEnv drawingEngine none img20) getReq res0 world0 =
      .undefined
        { gate := .free,
          trace := [.httpGet "http://example.test".toList "/cat.jpg".toList] } :=
  rfl

/-- C8: let `url` be a string (of size below `npos`, as every `std::string`) whose first
`://` is at position `p`. If `j` is the first index `>= p + 3`
where `url` has a `/`, then `host` is `url` before `j` and `path` is `url` from `j` on, so
that `host ++ path = url` and `path` starts with `/`; if `url` has no `/` at an index
`>= p + 3`, then `host = url` and `path` is `/`. -/
theorem split_url_with_scheme (url : List Char) (p : Nat) (hlen : url.length < npos)
    (hp : "://".toList <+: url.drop p) (hfirst : ∀ q < p, ¬ "://".toList <+: url.drop q) :
    (∀ j, p + 3 ≤ j → url[j]? = some '/' → '/' ∉ (url.take j).drop (p + 3) →
      split_url url = .ok (url.take j, url.drop j) ∧ url.take j ++ url.drop j = url ∧
        (url.drop j).head? = some '/') ∧
    ('/' ∉ url.drop (p + 3) → split_url url = .ok (url, "/".toList)) := by
  have hle := scheme_end_le url p hp
  have hstart : (find_str url "://".toList 0 + 3) % SIZE_MOD = p + 3 := by
    rw [find_str_first url p hp hfirst]
    apply Nat.mod_eq_of_lt
    simp only [SIZE_MOD]
    simp only [npos] at hlen
    omega
  have hfrom := split_url_from url (p + 3) hlen hstart
  refine ⟨fun j h1 h2 h3 => ⟨hfrom.1 j h1 h2 h3, List.take_append_drop j url, ?_⟩, hfrom.2⟩
  rw [List.head?_drop]
  exact h2

/-- The url `http://a.b/c/d` splits at index 10. -/
theorem split_url_with_scheme_witness :
    split_url "http://a.b/c/d".toList = .ok ("http://a.b".toList, "/c/d".toList) :=
  ((split_url_with_scheme "http://a.b/c/d".toList 4 (by decide) (by decide) (by decide)).1 10
    (by decide) (by decide) (by decide)).1

/-- C10: let `url` be a string (of size below `npos`, as every `std::string`). When `url`
does not contain `://`, the search for the slash starts at
`(npos + 3) mod 2 ^ 64 = 2`: if `j` is the first index `>= 2` where `url` has a `/`, then
`host` is `url` before `j` and `path` is `url` from `j` on; if `url` has no `/` at an index
`>= 2`, then `host = url` and `path` is `/`, as for `/a`. And for every `url`, with or
without `://`, `split_url` returns, with `host = url` and `path` equal to `/`, or with
`host ++ path = url` and `path` starting with `/`. -/
theorem split_url_without_scheme (url : List Char) (hlen : url.length < npos) :
    (¬ "://".toList <:+: url →
      (find_str url "://".toList 0 + 3) % SIZE_MOD = 2 ∧
      (∀ j, 2 ≤ j → url[j]? = some '/' → '/' ∉ (url.take j).drop 2 →
        split_url url = .ok (url.take j, url.drop j)) ∧
      ('/' ∉ url.drop 2 → split_url url = .ok (url, "/".toList))) ∧
    split_url "/a".toList = .ok ("/a".toList, "/".toList) ∧
    (∃ host path, split_url url = .ok (host, path) ∧
      ((host = url ∧ path = "/".toList) ∨ (host ++ path = url ∧ path.head? = some '/'))) := by
  refine ⟨fun habs => ?_, by decide, split_url_shape url hlen⟩
  have hstart : (find_str url "://".toList 0 + 3) % SIZE_MOD = 2 := by
    rw [find_str_absent url habs]
    decide
  exact ⟨hstart, split_url_from url 2 hlen hstart⟩

/-- The url `example.test/cat.png` splits at index 12. -/
theorem split_url_without_scheme_witness :
    split_url "example.test/cat.png".toList =
      .ok ("example.test".toList, "/cat.png".toList) :=
  ((split_url_without_scheme "example.test/cat.png".toList (by decide)).1 (by decide)).2.1 12
    (by decide) (by decide) (by decide)

/-- C5: any number of requests enter `apply_blur` on the one mutex and the one engine;
whatever the order in which the threads run their statements and whatever the engine
does, at every moment at most one thread is between `mutex_->lock()` and
`mutex_->unlock()`, where the two engine calls are made. -/
theorem apply_blur_mutual_exclusion (images : List Mat) (sched : List (Nat × Engine)) :
    ((Sys.init images).run sched).threads.countP Pc.inCritical ≤ 1 := by
  have hinv := Sys.inv_run (Sys.init images) sched (Sys.inv_init images)
  unfold Sys.Inv at hinv
  have hle : ((Sys.init images).run sched).threads.countP Pc.inCritical ≤
      ((Sys.init images).run sched).threads.countP Pc.holds := by
    apply List.countP_mono_left
    intro pc _ hc
    cases pc <;> simp_all [Pc.inCritical, Pc.holds]
  cases hg : ((Sys.init images).run sched).gate with
  | free => rw [hg] at hinv; simp only at hinv; omega
  | held => rw [hg] at hinv; simp only at hinv; omega

end TrtYolo
